import Mathlib

/-!
Formal model of the zero-gtm background worker
(src/workers/worker.py, src/workers/find_emails.py,
src/workers/find_decision_makers.py): the job dispatch lifecycle, orphan
recovery at startup, the dispatcher loop, and the bounded enrichment
runners used by the handlers.

Operations provided by the shared handler base class (base.py, which is
not among the sources) are modelled from the specification at their
interface: fail, complete, update_progress and the record-update helper
that merges the enrichment_status sub-map.
-/

/-- Job lifecycle states (spec section 3). -/
inductive JobStatus where
  | pending
  | running
  | done
  | failed
  deriving DecidableEq, Repr

/-- Values appearing in a job's opaque config map. -/
inductive ConfigVal where
  | num (n : Nat)
  | flag (b : Bool)
  deriving DecidableEq, Repr

/-- Persisted bulk-job record: id, type, status, config, progress,
started_at, result, error (worker.py reads and writes these fields). -/
structure Job where
  id : Nat
  type : String
  status : JobStatus
  config : List (String × ConfigVal)
  progress : List (String × Nat)
  started_at : Option Nat
  result : Option String
  error : Option String
  deriving DecidableEq, Repr

/-- Outcome of one bulk update on the store: either it succeeds or the
client raises an exception carrying a message. -/
inductive StoreOutcome where
  | ok
  | err (msg : String)
  deriving DecidableEq, Repr

/-- The store update performed by recover_orphaned_jobs (worker.py lines
62-65): every job whose status is `running` is set to `pending` with
`started_at` null and `progress` cleared; all other jobs are untouched. -/
def resetRunningToPending (jobs : List Job) : List Job :=
  jobs.map (fun j =>
    if j.status = .running then
      { j with status := .pending, started_at := none, progress := [] }
    else j)

/-- recover_orphaned_jobs (worker.py lines 54-70): the update runs inside
try/except, so on a store exception the job table is left unchanged and
the error is only logged. -/
def recover_orphaned_jobs (jobs : List Job) (o : StoreOutcome) : List Job :=
  match o with
  | .ok => resetRunningToPending jobs
  | .err _ => jobs

/-- Abstract outcome of a handler's run() call as seen by the dispatcher
loop: the handler either completes the job with a result payload
(base.py complete, modelled from the spec) or raises with a message. -/
inductive HandlerOutcome where
  | success (result : String)
  | raised (msg : String)

/-- Handler registry: JOB_HANDLERS in worker.py, a static map from
job-type string to a handler implementation. -/
abbrev HandlerMap := List (String × (Job → HandlerOutcome))

/-- Registry lookup, JOB_HANDLERS.get(job_type) (worker.py line 104). -/
def lookupHandler (hs : HandlerMap) (t : String) : Option (Job → HandlerOutcome) :=
  (hs.find? (fun kv => kv.1 = t)).map (fun kv => kv.2)

/-- Point update of the job table at one job id; the store's
update(...).eq("id", job_id). -/
def setJob (jobs : List Job) (jid : Nat) (f : Job → Job) : List Job :=
  jobs.map (fun j => if j.id = jid then f j else j)

/-- Terminal transition to failed with an error message (worker.py lines
107-110 for unknown types; base.py fail, modelled from the spec, for
handler exceptions). -/
def markFailed (jobs : List Job) (jid : Nat) (msg : String) : List Job :=
  setJob jobs jid (fun j => { j with status := .failed, error := some msg })

/-- Terminal transition to done with a result payload (base.py complete,
modelled from the spec). -/
def markDone (jobs : List Job) (jid : Nat) (res : String) : List Job :=
  setJob jobs jid (fun j => { j with status := .done, result := some res })

/-- Lookup of a job record by id in the job table. -/
def findJob (jobs : List Job) (jid : Nat) : Option Job :=
  jobs.find? (fun j => j.id == jid)

/-- Default poll interval (worker.py line 51, WORKER_POLL_INTERVAL
defaulting to 5). -/
def POLL_INTERVAL : Nat := 5

/-- What one iteration of the dispatcher loop observes: an interrupt
signal, an exception out of the loop's own infrastructure code (the claim
call itself, store connectivity), an empty claim, or a claimed job. -/
inductive LoopEvent where
  | interrupt
  | infraError (msg : String)
  | claimEmpty
  | claimJob (j : Job)

/-- How one iteration of the dispatcher loop ends: break out of the loop,
sleep a number of seconds then continue, or continue immediately. -/
inductive LoopResult where
  | terminated
  | sleepThen (secs : Nat)
  | continued
  deriving DecidableEq, Repr

/-- Result of one loop iteration: the job table afterwards, how the
iteration ended, and the type of the job dispatched to a handler, if any
handler was invoked. -/
structure StepOut where
  jobs : List Job
  result : LoopResult
  dispatched : Option String

/-- One iteration of the dispatcher loop body (worker.py lines 84-128):
KeyboardInterrupt breaks; any other exception from infrastructure code is
caught and followed by a sleep of twice the poll interval; an empty claim
sleeps the poll interval; a claimed job of unknown type is marked failed
with a message naming the type and never dispatched; otherwise the
handler runs, its exception (if any) is caught and converted to
markFailed, and the loop continues. -/
def loopStep (hs : HandlerMap) (p : Nat) (jobs : List Job) : LoopEvent → StepOut
  | .interrupt => ⟨jobs, .terminated, none⟩
  | .infraError _ => ⟨jobs, .sleepThen (p * 2), none⟩
  | .claimEmpty => ⟨jobs, .sleepThen p, none⟩
  | .claimJob j =>
    match lookupHandler hs j.type with
    | none =>
      ⟨markFailed jobs j.id ("Unknown job type: " ++ j.type), .continued, none⟩
    | some h =>
      match h j with
      | .success r => ⟨markDone jobs j.id r, .continued, some j.type⟩
      | .raised m => ⟨markFailed jobs j.id m, .continued, some j.type⟩

/-- The dispatcher loop run over a sequence of observed events; a
terminated iteration breaks out and the remaining events are not
processed (worker.py while True / break). -/
def runLoop (hs : HandlerMap) (p : Nat) : List Job → List LoopEvent → List Job × List LoopResult
  | jobs, [] => (jobs, [])
  | jobs, ev :: evs =>
    let s := loopStep hs p jobs ev
    if s.result = .terminated then (s.jobs, [s.result])
    else
      let rest := runLoop hs p s.jobs evs
      (rest.1, s.result :: rest.2)

/-- Top-level operations main() performs in order (worker.py lines
73-128): the one startup orphan-recovery call, then loop iterations. -/
inductive MainEvent where
  | recoverOp (o : StoreOutcome)
  | iter (ev : LoopEvent)

/-- Whether a main-level operation is the orphan-recovery call. -/
def isRecover : MainEvent → Bool
  | .recoverOp _ => true
  | .iter _ => false

/-- The schedule of operations main() performs: recovery once, at the
start, then only loop iterations (worker.py lines 82-84). -/
def mainSchedule (o : StoreOutcome) (evs : List LoopEvent) : List MainEvent :=
  .recoverOp o :: evs.map .iter

theorem findJob_setJob_self (jobs : List Job) (jid : Nat) (f : Job → Job)
    (hf : ∀ j, (f j).id = j.id) :
    findJob (setJob jobs jid f) jid = (findJob jobs jid).map f := by
  induction jobs with
  | nil => rfl
  | cons a t ih =>
    by_cases h : a.id = jid
    · simp [findJob, setJob, List.find?_cons, h, hf, beq_iff_eq]
    · simpa [findJob, setJob, List.find?_cons, h, beq_iff_eq] using ih

theorem findJob_setJob_ne (jobs : List Job) (jid k : Nat) (f : Job → Job)
    (hf : ∀ j, (f j).id = j.id) (hk : k ≠ jid) :
    findJob (setJob jobs jid f) k = findJob jobs k := by
  induction jobs with
  | nil => rfl
  | cons a t ih =>
    by_cases h : a.id = jid
    · simpa [findJob, setJob, List.find?_cons, h, hf, beq_iff_eq, Ne.symm hk] using ih
    · by_cases h2 : a.id = k
      · simp [findJob, setJob, List.find?_cons, h, h2, hk, beq_iff_eq]
      · simpa [findJob, setJob, List.find?_cons, h, h2, beq_iff_eq] using ih

theorem loopStep_terminated_iff (hs : HandlerMap) (p : Nat) (jobs : List Job)
    (ev : LoopEvent) :
    (loopStep hs p jobs ev).result = .terminated ↔ ev = .interrupt := by
  cases ev with
  | interrupt => simp [loopStep]
  | infraError m => simp [loopStep]
  | claimEmpty => simp [loopStep]
  | claimJob j =>
    simp only [loopStep]
    cases hl : lookupHandler hs j.type with
    | none => simp
    | some h => cases hr : h j <;> simp [hr]

theorem runLoop_terminated_only_interrupt (hs : HandlerMap) (p : Nat) :
    ∀ (evs : List LoopEvent) (js : List Job),
      .terminated ∈ (runLoop hs p js evs).2 → .interrupt ∈ evs := by
  intro evs
  induction evs with
  | nil => intro js hmem; simp [runLoop] at hmem
  | cons e es ih =>
    intro js hmem
    by_cases hstep : (loopStep hs p js e).result = .terminated
    · have he : e = .interrupt := (loopStep_terminated_iff hs p js e).mp hstep
      simp [he]
    · simp only [runLoop, if_neg hstep] at hmem
      rcases List.mem_cons.mp hmem with h1 | h2
      · exact absurd h1.symm hstep
      · exact List.mem_cons_of_mem _ (ih _ h2)

theorem setJob_no_new_pending (js : List Job) (k : Nat) (f : Job → Job)
    (hid : ∀ x, (f x).id = x.id) (hst : ∀ x, (f x).status ≠ .pending)
    (j : Job) (hj : j ∈ js) (hrun : j.status = .running) :
    ∃ j2 ∈ setJob js k f, j2.id = j.id ∧ j2.status ≠ .pending := by
  refine ⟨(if j.id = k then f j else j), List.mem_map_of_mem _ hj, ?_, ?_⟩
  · by_cases h : j.id = k <;> simp [h, hid]
  · by_cases h : j.id = k <;> simp [h, hst, hrun]

/-- C1: at process start the dispatcher calls the orphan-recovery
operation exactly once, before entering the polling loop, and after the
recovery update every job that had status `running` at startup has status
`pending`, `started_at` null and `progress` cleared. -/
theorem startup_recovery_once_and_correct (o : StoreOutcome) (evs : List LoopEvent)
    (jobs : List Job) :
    (mainSchedule o evs).countP isRecover = 1 ∧
    (mainSchedule o evs).head? = some (.recoverOp o) ∧
    (∀ e ∈ (mainSchedule o evs).tail, isRecover e = false) ∧
    (∀ j ∈ jobs, j.status = .running →
      { j with status := .pending, started_at := none, progress := [] } ∈
        recover_orphaned_jobs jobs .ok) ∧
    (∀ j ∈ recover_orphaned_jobs jobs .ok, j.status ≠ .running) := by
  have htail : ∀ e ∈ evs.map MainEvent.iter, isRecover e = false := by
    intro e he
    rcases List.mem_map.mp he with ⟨x, _, rfl⟩
    rfl
  refine ⟨?_, rfl, ?_, ?_, ?_⟩
  · have hz : (evs.map MainEvent.iter).countP isRecover = 0 := by
      refine List.countP_eq_zero.mpr ?_
      intro e he
      simp [htail e he]
    simp [mainSchedule, List.countP_cons, isRecover, hz]
  · intro e he
    exact htail e (by simpa [mainSchedule] using he)
  · intro j hj hrun
    exact List.mem_map.mpr ⟨j, hj, by simp [hrun]⟩
  · intro j hj
    rcases List.mem_map.mp hj with ⟨x, _, rfl⟩
    by_cases h : x.status = .running <;> simp [h]

/-- Sample orphaned job used to instantiate the startup-recovery
theorems on concrete input. -/
def demoRunningJob : Job :=
  { id := 7, type := "find_emails", status := .running, config := [],
    progress := [("processed", 3)], started_at := some 11,
    result := none, error := none }

theorem startup_recovery_once_and_correct_witness :
    ({ demoRunningJob with
        status := JobStatus.pending,
        started_at := none,
        progress := [] } ∈ recover_orphaned_jobs [demoRunningJob] .ok) ∧
    (mainSchedule .ok []).countP isRecover = 1 :=
  ⟨(startup_recovery_once_and_correct .ok [] [demoRunningJob]).2.2.2.1
      demoRunningJob (by simp) rfl,
   (startup_recovery_once_and_correct .ok [] [demoRunningJob]).1⟩

/-- C10: when the startup orphan-recovery update raises, the exception is
swallowed as non-fatal, the job table is unchanged (running jobs stay
running), the worker still proceeds into the polling loop, the sweep is
not retried, and no loop iteration ever resets a running job to pending. -/
theorem recovery_failure_nonfatal (jobs : List Job) (m : String)
    (evs : List LoopEvent) :
    recover_orphaned_jobs jobs (.err m) = jobs ∧
    (∀ j ∈ jobs, j.status = .running → j ∈ recover_orphaned_jobs jobs (.err m)) ∧
    (mainSchedule (.err m) evs).tail = evs.map .iter ∧
    (mainSchedule (.err m) evs).countP isRecover = 1 ∧
    (∀ (hs : HandlerMap) (p : Nat) (js : List Job) (ev : LoopEvent) (j : Job),
      j ∈ js → j.status = .running →
      ∃ j2 ∈ (loopStep hs p js ev).jobs, j2.id = j.id ∧ j2.status ≠ .pending) := by
  refine ⟨rfl, ?_, rfl, ?_, ?_⟩
  · intro j hj _
    exact hj
  · have hz : (evs.map MainEvent.iter).countP isRecover = 0 := by
      refine List.countP_eq_zero.mpr ?_
      intro e he
      rcases List.mem_map.mp he with ⟨x, _, rfl⟩
      simp [isRecover]
    simp [mainSchedule, List.countP_cons, isRecover, hz]
  · intro hs p js ev j hj hrun
    cases ev with
    | interrupt => exact ⟨j, by simpa [loopStep] using hj, rfl, by simp [hrun]⟩
    | infraError m2 => exact ⟨j, by simpa [loopStep] using hj, rfl, by simp [hrun]⟩
    | claimEmpty => exact ⟨j, by simpa [loopStep] using hj, rfl, by simp [hrun]⟩
    | claimJob j0 =>
      have key : ∀ (f : Job → Job), (∀ x, (f x).id = x.id) →
          (∀ x, (f x).status ≠ .pending) →
          ∃ j2 ∈ setJob js j0.id f, j2.id = j.id ∧ j2.status ≠ .pending :=
        fun f hid hst => setJob_no_new_pending js j0.id f hid hst j hj hrun
      simp only [loopStep]
      cases hl : lookupHandler hs j0.type with
      | none =>
        simpa [markFailed] using
          key (fun j2 => { j2 with
                status := .failed,
                error := some ("Unknown job type: " ++ j0.type) })
            (fun _ => rfl) (fun _ => by simp)
      | some h =>
        cases hr : h j0 with
        | success r =>
          simpa [markDone, hr] using
            key (fun j2 => { j2 with status := .done, result := some r })
              (fun _ => rfl) (fun _ => by simp)
        | raised m2 =>
          simpa [markFailed, hr] using
            key (fun j2 => { j2 with status := .failed, error := some m2 })
              (fun _ => rfl) (fun _ => by simp)

theorem recovery_failure_nonfatal_witness :
    recover_orphaned_jobs [demoRunningJob] (.err "timeout") = [demoRunningJob] ∧
    demoRunningJob ∈ recover_orphaned_jobs [demoRunningJob] (.err "timeout") :=
  ⟨(recovery_failure_nonfatal [demoRunningJob] "timeout" []).1,
   (recovery_failure_nonfatal [demoRunningJob] "timeout" []).2.1
      demoRunningJob (by simp) rfl⟩

/-- C8: the dispatcher loop terminates only on an explicit interrupt;
every exception escaping the loop's own infrastructure code (the claim
call included) is caught and followed by a backoff sleep of double the
poll interval, and a run of the loop only ever ends because an interrupt
event occurred. -/
theorem loop_terminates_only_on_interrupt (hs : HandlerMap) (p : Nat)
    (jobs : List Job) (ev : LoopEvent) :
    ((loopStep hs p jobs ev).result = .terminated ↔ ev = .interrupt) ∧
    (∀ m, ev = .infraError m → (loopStep hs p jobs ev).result = .sleepThen (p * 2)) ∧
    (∀ (evs : List LoopEvent) (js : List Job),
      .terminated ∈ (runLoop hs p js evs).2 → .interrupt ∈ evs) := by
  refine ⟨loopStep_terminated_iff hs p jobs ev, ?_, ?_⟩
  · intro m hm
    subst hm
    rfl
  · exact runLoop_terminated_only_interrupt hs p

theorem loop_terminates_only_on_interrupt_witness :
    (loopStep [] 5 [] (.infraError "store down")).result = .sleepThen 10 :=
  (loop_terminates_only_on_interrupt [] 5 [] (.infraError "store down")).2.1
    "store down" rfl

/-- C5: a claimed job whose type is not in the handler registry is
immediately marked failed with an error naming the type string, is never
dispatched to any handler, and the loop continues. -/
theorem unknown_type_marked_failed (hs : HandlerMap) (p : Nat) (jobs : List Job)
    (j a : Job) (hu : lookupHandler hs j.type = none)
    (ha : findJob jobs j.id = some a) :
    findJob (loopStep hs p jobs (.claimJob j)).jobs j.id
      = some { a with
          status := .failed,
          error := some ("Unknown job type: " ++ j.type) } ∧
    (∃ pre suf, "Unknown job type: " ++ j.type = pre ++ j.type ++ suf) ∧
    (loopStep hs p jobs (.claimJob j)).dispatched = none ∧
    (loopStep hs p jobs (.claimJob j)).result = .continued := by
  refine ⟨?_, ⟨"Unknown job type: ", "", by simp⟩, ?_, ?_⟩
  · simp only [loopStep, hu, markFailed]
    rw [findJob_setJob_self jobs j.id
        (fun j2 => { j2 with
          status := .failed,
          error := some ("Unknown job type: " ++ j.type) })
        (fun _ => rfl), ha]
    rfl
  · simp [loopStep, hu]
  · simp [loopStep, hu]

/-- Sample job of an unregistered type used to instantiate the
unknown-type theorem on concrete input. -/
def demoJobUnknown : Job :=
  { id := 1, type := "unknown_type", status := .running, config := [],
    progress := [], started_at := some 0, result := none, error := none }

theorem unknown_type_marked_failed_witness :
    findJob (loopStep [] 5 [demoJobUnknown] (.claimJob demoJobUnknown)).jobs
        demoJobUnknown.id
      = some { demoJobUnknown with
          status := .failed,
          error := some ("Unknown job type: " ++ demoJobUnknown.type) } ∧
    (∃ pre suf,
      "Unknown job type: " ++ demoJobUnknown.type
        = pre ++ demoJobUnknown.type ++ suf) ∧
    (loopStep [] 5 [demoJobUnknown] (.claimJob demoJobUnknown)).dispatched = none ∧
    (loopStep [] 5 [demoJobUnknown] (.claimJob demoJobUnknown)).result = .continued :=
  unknown_type_marked_failed [] 5 [demoJobUnknown] demoJobUnknown demoJobUnknown
    rfl rfl

/-- C2: an exception raised by a handler's run is caught by the loop,
which marks the job failed with the exception's message and continues; a
subsequently claimed job whose handler succeeds is marked done, and no
iteration terminates the process. -/
theorem handler_exception_contained (hs : HandlerMap) (p : Nat) (jobs : List Job)
    (j j' a b : Job) (h h' : Job → HandlerOutcome) (m r : String)
    (hlook : lookupHandler hs j.type = some h) (hraise : h j = .raised m)
    (hlook' : lookupHandler hs j'.type = some h') (hok : h' j' = .success r)
    (hne : j'.id ≠ j.id)
    (ha : findJob jobs j.id = some a) (hb : findJob jobs j'.id = some b) :
    findJob (runLoop hs p jobs [.claimJob j, .claimJob j']).1 j.id
      = some { a with status := .failed, error := some m } ∧
    findJob (runLoop hs p jobs [.claimJob j, .claimJob j']).1 j'.id
      = some { b with status := .done, result := some r } ∧
    (runLoop hs p jobs [.claimJob j, .claimJob j']).2
      = [.continued, .continued] := by
  have hstep1 : loopStep hs p jobs (.claimJob j)
      = ⟨markFailed jobs j.id m, .continued, some j.type⟩ := by
    simp [loopStep, hlook, hraise]
  have hstep2 : loopStep hs p (markFailed jobs j.id m) (.claimJob j')
      = ⟨markDone (markFailed jobs j.id m) j'.id r, .continued, some j'.type⟩ := by
    simp [loopStep, hlook', hok]
  have hrun : runLoop hs p jobs [.claimJob j, .claimJob j']
      = (markDone (markFailed jobs j.id m) j'.id r,
         [.continued, .continued]) := by
    simp [runLoop, hstep1, hstep2]
  rw [hrun]
  refine ⟨?_, ?_, rfl⟩
  · simp only [markDone, markFailed]
    rw [findJob_setJob_ne _ j'.id j.id
        (fun j2 => { j2 with status := .done, result := some r })
        (fun _ => rfl) (Ne.symm hne),
      findJob_setJob_self jobs j.id
        (fun j2 => { j2 with status := .failed, error := some m })
        (fun _ => rfl), ha]
    rfl
  · simp only [markDone, markFailed]
    rw [findJob_setJob_self _ j'.id
        (fun j2 => { j2 with status := .done, result := some r })
        (fun _ => rfl),
      findJob_setJob_ne jobs j.id j'.id
        (fun j2 => { j2 with status := .failed, error := some m })
        (fun _ => rfl) hne, hb]
    rfl

/-- Sample job whose handler raises, used to instantiate the
exception-containment theorem on concrete input. -/
def demoJobBad : Job :=
  { id := 1, type := "t_bad", status := .running, config := [],
    progress := [], started_at := some 0, result := none, error := none }

/-- Sample job whose handler succeeds, used to instantiate the
exception-containment theorem on concrete input. -/
def demoJobGood : Job :=
  { id := 2, type := "t_good", status := .running, config := [],
    progress := [], started_at := some 0, result := none, error := none }

/-- Sample registry with one raising and one well-behaved handler. -/
def demoHandlers : HandlerMap :=
  [("t_bad", fun _ => .raised "boom"), ("t_good", fun _ => .success "ok")]

theorem handler_exception_contained_witness :
    findJob (runLoop demoHandlers 5 [demoJobBad, demoJobGood]
        [.claimJob demoJobBad, .claimJob demoJobGood]).1 demoJobBad.id
      = some { demoJobBad with status := .failed, error := some "boom" } ∧
    findJob (runLoop demoHandlers 5 [demoJobBad, demoJobGood]
        [.claimJob demoJobBad, .claimJob demoJobGood]).1 demoJobGood.id
      = some { demoJobGood with status := .done, result := some "ok" } ∧
    (runLoop demoHandlers 5 [demoJobBad, demoJobGood]
        [.claimJob demoJobBad, .claimJob demoJobGood]).2
      = [.continued, .continued] :=
  handler_exception_contained demoHandlers 5 [demoJobBad, demoJobGood]
    demoJobBad demoJobGood demoJobBad demoJobGood
    (fun _ => .raised "boom") (fun _ => .success "ok") "boom" "ok"
    rfl rfl rfl rfl (by decide) rfl rfl

/-- JSON-ish values stored in a lead's enrichment_status map (stage
outcome strings such as "done", and the website_validated boolean). -/
inductive JsonVal where
  | s (v : String)
  | b (v : Bool)
  deriving DecidableEq, Repr

/-- Lead record fields the workers read: identity, campaign, email,
website and domain, decision-maker name, the per-stage enrichment_status
map, and the remaining enrichment fields as an opaque key-value map. -/
structure Lead where
  id : Nat
  campaign_id : Nat
  email : Option String
  company_website : Option String
  domain : Option String
  decision_maker_name : Option String
  enrichment_status : List (String × JsonVal)
  fields : List (String × String)
  deriving DecidableEq, Repr

/-- Python truthiness of an optional string: None and "" are falsy. -/
def truthy : Option String → Bool
  | none => false
  | some v => !(v = "")

/-- Application-level filter keeping leads that have a website
(find_emails.py line 57, find_decision_makers.py line 59). -/
def hasWebsite (l : Lead) : Bool :=
  truthy l.company_website || truthy l.domain

/-- Dict update on an association map: replace the value at an existing
key in place, or append the binding (Python dict assignment). -/
def setKey : List (String × JsonVal) → String → JsonVal → List (String × JsonVal)
  | [], k, v => [(k, v)]
  | kv :: rest, k, v =>
    if kv.1 = k then (k, v) :: rest else kv :: setKey rest k v

/-- Shallow key-wise merge of enrichment_status maps: the update's
bindings are folded into the existing map, new keys appended, existing
keys overwritten in place. -/
def mergeStatus (base upd : List (String × JsonVal)) : List (String × JsonVal) :=
  upd.foldl (fun acc kv => setKey acc kv.1 kv.2) base

/-- Lookup in an enrichment_status map. -/
def lookupS (m : List (String × JsonVal)) (k : String) : Option JsonVal :=
  (m.find? (fun kv => kv.1 = k)).map (fun kv => kv.2)

/-- Partial update of a lead: scalar fields plus an enrichment_status
sub-map; the shape submitted by the handlers through update_lead. -/
structure LeadUpdate where
  fields : List (String × String)
  enrichment_status : List (String × JsonVal)
  deriving DecidableEq, Repr

/-- Dict update for the scalar fields of a partial lead update. -/
def setField : List (String × String) → String → String → List (String × String)
  | [], k, v => [(k, v)]
  | kv :: rest, k, v =>
    if kv.1 = k then (k, v) :: rest else kv :: setField rest k v

/-- Modelled from the spec: update_record / update_lead lives in base.py,
which is not among the sources; per spec section 4.3 it applies a partial
field update to a Lead and merges the enrichment_status sub-map key-wise
(new keys added or overwritten, existing unrelated keys preserved) rather
than replacing it wholesale. -/
def update_lead (l : Lead) (u : LeadUpdate) : Lead :=
  { l with
    fields := u.fields.foldl (fun acc kv => setField acc kv.1 kv.2) l.fields,
    enrichment_status := mergeStatus l.enrichment_status u.enrichment_status }

/-- Integer config read with default, config.get(key, default). -/
def getNum (cfg : List (String × ConfigVal)) (k : String) (d : Nat) : Nat :=
  match (cfg.find? (fun kv => kv.1 = k)).map (fun kv => kv.2) with
  | some (ConfigVal.num n) => n
  | _ => d

/-- Boolean config read with default, config.get(key, default). -/
def getBool (cfg : List (String × ConfigVal)) (k : String) (d : Bool) : Bool :=
  match (cfg.find? (fun kv => kv.1 = k)).map (fun kv => kv.2) with
  | some (ConfigVal.flag b) => b
  | _ => d

/-- Store-level eligibility filter built by FindEmailsWorker.run
(find_emails.py lines 41-51) and FindDecisionMakersWorker.run
(find_decision_makers.py lines 44-53): campaign match, the optional null
check on the stage's output column, and the JSONB containment check on
website_validated. -/
def leadStoreFilter (campaign : Nat) (includeExisting validatedOnly : Bool)
    (outputIsNull : Lead → Bool) (l : Lead) : Bool :=
  (l.campaign_id = campaign)
    && (includeExisting || outputIsNull l)
    && (!validatedOnly
        || decide (lookupS l.enrichment_status "website_validated" = some (.b true)))

/-- The store query of the handlers: every store-level filter applies
before the LIMIT max_leads, so the batch cap counts eligible rows
(find_emails.py lines 41-52). -/
def fetchLeads (db : List Lead) (campaign : Nat) (maxLeads : Nat)
    (includeExisting validatedOnly : Bool) (outputIsNull : Lead → Bool) : List Lead :=
  (db.filter (leadStoreFilter campaign includeExisting validatedOnly outputIsNull)).take
    maxLeads

/-- Outcome of the per-record operation of the email runner: the future
raised when awaited, the scrape returned no contacts or contacts mapped
to an empty update, or it produced a non-empty partial update
(find_emails.py lines 83-91, 99-118). -/
inductive RecordOutcome where
  | raised (msg : String)
  | noData
  | enrichedWith (u : LeadUpdate)
  deriving DecidableEq, Repr

/-- Aggregate state of a bounded enrichment run: the processed counter,
the enriched / found counter, the lead table, and the sequence of
(processed, total) snapshots passed to update_progress (base.py,
modelled from the spec as overwriting the job's progress). -/
structure RunState where
  processed : Nat
  enriched : Nat
  db : List Lead
  trace : List (Nat × Nat)
  deriving Repr

/-- Point update of the lead table at one lead id through update_lead. -/
def applyUpdate (db : List Lead) (lid : Nat) (u : LeadUpdate) : List Lead :=
  db.map (fun l => if l.id = lid then update_lead l u else l)

/-- Lookup of a lead record by id in the lead table. -/
def findLead (db : List Lead) (lid : Nat) : Option Lead :=
  db.find? (fun l => l.id == lid)

/-- One completed future of FindEmailsWorker.run (lines 79-94):
processed always increments; an exception from the future is caught and
logged; a non-empty update is applied and counted as enriched; every
tenth completion flushes progress. -/
def emailsStep (total : Nat) (st : RunState) (item : Lead × RecordOutcome) : RunState :=
  let p := st.processed + 1
  let st2 :=
    match item.2 with
    | .enrichedWith u =>
      { st with
        processed := p,
        enriched := st.enriched + 1,
        db := applyUpdate st.db item.1.id u }
    | _ => { st with processed := p }
  if p % 10 = 0 then { st2 with trace := st2.trace ++ [(p, total)] } else st2

/-- The bounded enrichment loop of FindEmailsWorker.run (lines 65-96):
initial progress snapshot, one step per completed record, and a final
snapshot with the final totals.  The pool completes futures in arbitrary
order, but the counters and per-id updates are order-independent, so
completions are folded in submission order. -/
def emailsEnrichLoop (leads : List Lead) (op : Lead → RecordOutcome)
    (db : List Lead) : RunState :=
  let total := leads.length
  let fin := leads.foldl (fun st l => emailsStep total st (l, op l))
    { processed := 0, enriched := 0, db := db, trace := [(0, total)] }
  { fin with trace := fin.trace ++ [(fin.processed, total)] }

/-- One iteration of FindDecisionMakersWorker.run (lines 72-102):
processed increments; the update written merges the fetched lead's
enrichment_status with the stage tag done or not_found; found counts
successes; every fifth completion flushes progress. -/
def dmStep (total : Nat) (st : RunState)
    (item : Lead × Option (List (String × String))) : RunState :=
  let p := st.processed + 1
  let st2 :=
    match item.2 with
    | some dmFields =>
      { st with
        processed := p,
        enriched := st.enriched + 1,
        db := applyUpdate st.db item.1.id
          ⟨dmFields, setKey item.1.enrichment_status "find_decision_makers" (.s "done")⟩ }
    | none =>
      { st with
        processed := p,
        db := applyUpdate st.db item.1.id
          ⟨[], setKey item.1.enrichment_status "find_decision_makers" (.s "not_found")⟩ }
  if p % 5 = 0 then { st2 with trace := st2.trace ++ [(p, total)] } else st2

/-- The sequential enrichment loop of FindDecisionMakersWorker.run
(lines 67-105). -/
def dmEnrichLoop (leads : List Lead)
    (op : Lead → Option (List (String × String))) (db : List Lead) : RunState :=
  let total := leads.length
  let fin := leads.foldl (fun st l => dmStep total st (l, op l))
    { processed := 0, enriched := 0, db := db, trace := [(0, total)] }
  { fin with trace := fin.trace ++ [(fin.processed, total)] }

/-- Result of a full FindEmailsWorker.run: the failure message if it
failed before fetching, the complete() payload counters, the lead table
after the run, and the progress trace. -/
structure EmailsOut where
  failedMsg : Option String
  processed : Nat
  enriched : Nat
  total : Nat
  db : List Lead
  trace : List (Nat × Nat)
  deriving Repr

/-- The enrichment phase of FindEmailsWorker.run after the fetch
(find_emails.py lines 59-97): empty batches complete early with
processed 0, otherwise the bounded enrichment loop runs and complete()
reports its counters. -/
def emailsRunner (leads : List Lead) (op : Lead → RecordOutcome)
    (db : List Lead) : EmailsOut :=
  if leads.isEmpty then ⟨none, 0, 0, 0, db, []⟩
  else
    let st := emailsEnrichLoop leads op db
    ⟨none, st.processed, st.enriched, leads.length, st.db, st.trace⟩

/-- FindEmailsWorker.run (find_emails.py lines 29-97): config reads with
defaults, missing-credential failure before any fetch, the store-level
filtered and limited fetch, the application-level website filter, then
the enrichment phase. -/
def emailsRun (cfg : List (String × ConfigVal)) (campaign : Nat)
    (apiKeyPresent : Bool) (db : List Lead) (op : Lead → RecordOutcome) : EmailsOut :=
  if apiKeyPresent then
    emailsRunner
      ((fetchLeads db campaign (getNum cfg "max_leads" 100)
          (getBool cfg "include_existing" false)
          (getBool cfg "validated_only" true)
          (fun l => l.email.isNone)).filter hasWebsite)
      op db
  else ⟨some "OpenWeb Ninja API key not configured", 0, 0, 0, db, []⟩

/-- Multiples of the flush cadence hit while the processed counter runs
from p+1 up to p+k. -/
def cadencePoints (c : Nat) : Nat → Nat → List Nat
  | _, 0 => []
  | p, k + 1 =>
    (if (p + 1) % c = 0 then [p + 1] else []) ++ cadencePoints c (p + 1) k

/-- Number of worker threads of the email enrichment pool
(find_emails.py line 25, five per second per the API limits). -/
def CONCURRENT_REQUESTS : Nat := 5

/-- State of a fixed-size worker pool: tasks currently in flight and
submitted tasks not yet started. -/
structure PoolState where
  running : Nat
  queued : Nat
  deriving DecidableEq, Repr

/-- Modelled from the spec: the fixed-size worker pool
(ThreadPoolExecutor with max_workers, find_emails.py lines 70-77) at its
interface per spec section 5 — a queued task may start only while fewer
than c tasks are in flight, and an in-flight task may finish. -/
inductive PoolStep (c : Nat) : PoolState → PoolState → Prop where
  | start (r q : Nat) : r < c → PoolStep c ⟨r, q + 1⟩ ⟨r + 1, q⟩
  | finish (r q : Nat) : PoolStep c ⟨r + 1, q⟩ ⟨r, q⟩

/-- Pool states reachable from an initial state with n submitted tasks
and none in flight. -/
def PoolReachable (c n : Nat) (s : PoolState) : Prop :=
  Relation.ReflTransGen (PoolStep c) ⟨0, n⟩ s

theorem lookupS_setKey_self (m : List (String × JsonVal)) (k : String) (v : JsonVal) :
    lookupS (setKey m k v) k = some v := by
  induction m with
  | nil => simp [setKey, lookupS]
  | cons kv rest ih =>
    by_cases h : kv.1 = k
    · simp [setKey, h, lookupS, List.find?_cons]
    · simpa [setKey, h, lookupS, List.find?_cons] using ih

theorem lookupS_setKey_other (m : List (String × JsonVal)) (k : String) (v : JsonVal)
    (k2 : String) (h : k2 ≠ k) :
    lookupS (setKey m k v) k2 = lookupS m k2 := by
  induction m with
  | nil => simp [setKey, lookupS, List.find?_cons, Ne.symm h]
  | cons kv rest ih =>
    by_cases hh : kv.1 = k
    · simp [setKey, hh, lookupS, List.find?_cons, Ne.symm h]
    · by_cases h2 : kv.1 = k2
      · simp [setKey, hh, lookupS, List.find?_cons, h2, h]
      · simpa [setKey, hh, lookupS, List.find?_cons, h2] using ih

theorem lookupS_mergeStatus_none :
    ∀ (upd base : List (String × JsonVal)) (k : String),
      lookupS upd k = none →
      lookupS (mergeStatus base upd) k = lookupS base k := by
  intro upd
  induction upd with
  | nil => intro base k _; rfl
  | cons kv rest ih =>
    intro base k h
    by_cases hk : kv.1 = k
    · simp [lookupS, List.find?_cons, hk] at h
    · have h2 : lookupS rest k = none := by
        simpa [lookupS, List.find?_cons, hk] using h
      have : mergeStatus base (kv :: rest) = mergeStatus (setKey base kv.1 kv.2) rest := by
        simp [mergeStatus]
      rw [this, ih _ _ h2,
        lookupS_setKey_other _ _ _ _ (fun he => hk he.symm)]

theorem lookupS_mergeStatus_some :
    ∀ (upd base : List (String × JsonVal)) (k : String) (v : JsonVal),
      (upd.map Prod.fst).Nodup →
      lookupS upd k = some v →
      lookupS (mergeStatus base upd) k = some v := by
  intro upd
  induction upd with
  | nil => intro base k v _ h; simp [lookupS] at h
  | cons kv rest ih =>
    intro base k v hnd h
    have hnd2 : (kv.1 :: rest.map Prod.fst).Nodup := by
      simpa only [List.map_cons] using hnd
    have hhead : kv.1 ∉ rest.map Prod.fst := (List.nodup_cons.mp hnd2).1
    have htail : (rest.map Prod.fst).Nodup := (List.nodup_cons.mp hnd2).2
    have hfold : mergeStatus base (kv :: rest) = mergeStatus (setKey base kv.1 kv.2) rest := by
      simp [mergeStatus]
    by_cases hk : kv.1 = k
    · have hv : v = kv.2 := by
        simp [lookupS, List.find?_cons, hk] at h
        exact h.symm
      have hrest : lookupS rest k = none := by
        have hfind : rest.find? (fun kv => kv.1 = k) = none := by
          refine List.find?_eq_none.mpr ?_
          intro x hx
          simp only [decide_eq_true_eq]
          intro hxk
          exact hhead (List.mem_map.mpr ⟨x, hx, hxk.trans hk.symm⟩)
        simp [lookupS, hfind]
      rw [hfold, lookupS_mergeStatus_none rest _ k hrest, ← hk,
        lookupS_setKey_self, hv]
    · have h2 : lookupS rest k = some v := by
        simpa [lookupS, List.find?_cons, hk] using h
      rw [hfold]
      exact ih _ _ _ htail h2

/-- C3: update_lead merges the enrichment_status sub-map key-wise —
stages absent from the update keep their previously recorded outcome,
stages present in the update get the new value — and in particular a
lead with stage_a done updated with stage_b done ends with both
entries. -/
theorem enrichment_status_merge (l : Lead) (u : LeadUpdate) :
    (∀ k, lookupS u.enrichment_status k = none →
      lookupS (update_lead l u).enrichment_status k
        = lookupS l.enrichment_status k) ∧
    (∀ k v, (u.enrichment_status.map Prod.fst).Nodup →
      lookupS u.enrichment_status k = some v →
      lookupS (update_lead l u).enrichment_status k = some v) ∧
    (update_lead { l with enrichment_status := [("stage_a", .s "done")] }
        { u with enrichment_status := [("stage_b", .s "done")] }).enrichment_status
      = [("stage_a", .s "done"), ("stage_b", .s "done")] := by
  refine ⟨?_, ?_, ?_⟩
  · intro k hk
    exact lookupS_mergeStatus_none _ _ _ hk
  · intro k v hnd hk
    exact lookupS_mergeStatus_some _ _ _ _ hnd hk
  · simp [update_lead, mergeStatus, setKey]

/-- Sample lead carrying an earlier stage's outcome, used to instantiate
the merge theorem on concrete input. -/
def demoLeadA : Lead :=
  { id := 1, campaign_id := 1, email := none,
    company_website := some "https://a.example", domain := none,
    decision_maker_name := none,
    enrichment_status := [("stage_a", .s "done")], fields := [] }

/-- Sample partial update recording a different stage's outcome. -/
def demoUpdB : LeadUpdate :=
  { fields := [], enrichment_status := [("stage_b", .s "done")] }

theorem enrichment_status_merge_witness :
    lookupS (update_lead demoLeadA demoUpdB).enrichment_status "stage_a"
      = lookupS demoLeadA.enrichment_status "stage_a" ∧
    lookupS (update_lead demoLeadA demoUpdB).enrichment_status "stage_b"
      = some (.s "done") :=
  ⟨(enrichment_status_merge demoLeadA demoUpdB).1 "stage_a" rfl,
   (enrichment_status_merge demoLeadA demoUpdB).2.1 "stage_b" (.s "done")
      (by simp [demoUpdB]) rfl⟩

theorem update_lead_id (l : Lead) (u : LeadUpdate) : (update_lead l u).id = l.id := rfl

theorem findLead_applyUpdate_self (db : List Lead) (lid : Nat) (u : LeadUpdate) :
    findLead (applyUpdate db lid u) lid
      = (findLead db lid).map (fun l => update_lead l u) := by
  induction db with
  | nil => rfl
  | cons a t ih =>
    by_cases h : a.id = lid
    · simp [findLead, applyUpdate, List.find?_cons, h, beq_iff_eq, update_lead_id]
    · simpa [findLead, applyUpdate, List.find?_cons, h, beq_iff_eq] using ih

theorem findLead_applyUpdate_ne (db : List Lead) (lid k : Nat) (u : LeadUpdate)
    (hk : k ≠ lid) :
    findLead (applyUpdate db lid u) k = findLead db k := by
  induction db with
  | nil => rfl
  | cons a t ih =>
    by_cases h : a.id = lid
    · simpa [findLead, applyUpdate, List.find?_cons, h, beq_iff_eq,
        update_lead_id, Ne.symm hk] using ih
    · by_cases h2 : a.id = k
      · simp [findLead, applyUpdate, List.find?_cons, h, h2, hk, beq_iff_eq]
      · simpa [findLead, applyUpdate, List.find?_cons, h, h2, beq_iff_eq] using ih

theorem findLead_of_nodup :
    ∀ (db : List Lead) (l : Lead), (db.map Lead.id).Nodup → l ∈ db →
      findLead db l.id = some l := by
  intro db
  induction db with
  | nil => intro l _ h; cases h
  | cons a t ih =>
    intro l hnd hl
    have hnd2 : (a.id :: t.map Lead.id).Nodup := by
      simpa only [List.map_cons] using hnd
    have hhead : a.id ∉ t.map Lead.id := (List.nodup_cons.mp hnd2).1
    have htail : (t.map Lead.id).Nodup := (List.nodup_cons.mp hnd2).2
    rcases List.mem_cons.mp hl with rfl | hm
    · simp [findLead, List.find?_cons]
    · by_cases h : a.id = l.id
      · exact absurd (by rw [h]; exact List.mem_map.mpr ⟨l, hm, rfl⟩) hhead
      · simpa [findLead, List.find?_cons, h, beq_iff_eq] using ih l htail hm

/-- Sequential application of the successful per-record updates of the
email runner, id by id; the lead-table effect of the pool loop. -/
def applyOutcomes (op : Lead → RecordOutcome) : List Lead → List Lead → List Lead
  | [], db => db
  | l :: rest, db =>
    applyOutcomes op rest
      (match op l with
       | .enrichedWith u => applyUpdate db l.id u
       | _ => db)

theorem emailsStep_processed (total : Nat) (st : RunState) (item : Lead × RecordOutcome) :
    (emailsStep total st item).processed = st.processed + 1 := by
  rcases item with ⟨l, o⟩
  cases o <;> (simp only [emailsStep]; split <;> rfl)

theorem emailsStep_db (total : Nat) (st : RunState) (l : Lead) (o : RecordOutcome) :
    (emailsStep total st (l, o)).db
      = (match o with
         | .enrichedWith u => applyUpdate st.db l.id u
         | _ => st.db) := by
  cases o <;> (simp only [emailsStep]; split <;> rfl)

theorem emailsFold_processed (op : Lead → RecordOutcome) (total : Nat) :
    ∀ (leads : List Lead) (st : RunState),
      (leads.foldl (fun st l => emailsStep total st (l, op l)) st).processed
        = st.processed + leads.length := by
  intro leads
  induction leads with
  | nil => intro st; simp
  | cons x t ih =>
    intro st
    simp only [List.foldl_cons]
    rw [ih, emailsStep_processed]
    simp only [List.length_cons]
    omega

theorem emailsFold_db (op : Lead → RecordOutcome) (total : Nat) :
    ∀ (leads : List Lead) (st : RunState),
      (leads.foldl (fun st l => emailsStep total st (l, op l)) st).db
        = applyOutcomes op leads st.db := by
  intro leads
  induction leads with
  | nil => intro st; rfl
  | cons x t ih =>
    intro st
    simp only [List.foldl_cons, applyOutcomes]
    rw [ih, emailsStep_db]

theorem findLead_applyOutcomes_ne (op : Lead → RecordOutcome) :
    ∀ (leads db : List Lead) (k : Nat), (∀ l ∈ leads, l.id ≠ k) →
      findLead (applyOutcomes op leads db) k = findLead db k := by
  intro leads
  induction leads with
  | nil => intro db k _; rfl
  | cons x t ih =>
    intro db k hne
    rw [applyOutcomes, ih _ _ (fun l hl => hne l (List.mem_cons_of_mem _ hl))]
    cases hox : op x with
    | raised m => rfl
    | noData => rfl
    | enrichedWith u =>
      exact findLead_applyUpdate_ne _ _ _ _ (Ne.symm (hne x (List.mem_cons_self _ _)))

theorem findLead_applyOutcomes_enriched (op : Lead → RecordOutcome) :
    ∀ (leads db : List Lead) (l : Lead) (u : LeadUpdate),
      (leads.map Lead.id).Nodup → l ∈ leads →
      findLead db l.id = some l → op l = .enrichedWith u →
      findLead (applyOutcomes op leads db) l.id = some (update_lead l u) := by
  intro leads
  induction leads with
  | nil => intro db l u _ h; cases h
  | cons x t ih =>
    intro db l u hnd hmem hfind hop
    have hnd2 : (x.id :: t.map Lead.id).Nodup := by
      simpa only [List.map_cons] using hnd
    have hhead : x.id ∉ t.map Lead.id := (List.nodup_cons.mp hnd2).1
    have htail : (t.map Lead.id).Nodup := (List.nodup_cons.mp hnd2).2
    rcases List.mem_cons.mp hmem with rfl | hmt
    · have hne : ∀ l2 ∈ t, l2.id ≠ l.id := by
        intro l2 hl2 he
        exact hhead (by exact List.mem_map.mpr ⟨l2, hl2, he⟩)
      rw [applyOutcomes, hop,
        findLead_applyOutcomes_ne op t _ _ hne,
        findLead_applyUpdate_self, hfind]
      rfl
    · have hxne : x.id ≠ l.id := by
        intro he
        exact hhead (by rw [he]; exact List.mem_map.mpr ⟨l, hmt, rfl⟩)
      have hfind2 :
          findLead
            (match op x with
             | .enrichedWith u2 => applyUpdate db x.id u2
             | _ => db) l.id = some l := by
        cases hox : op x with
        | raised m => exact hfind
        | noData => exact hfind
        | enrichedWith u2 =>
          rw [findLead_applyUpdate_ne _ _ _ _ (Ne.symm hxne)]
          exact hfind
      rw [applyOutcomes]
      exact ih _ _ _ htail hmt hfind2 hop

theorem findLead_applyOutcomes_unchanged (op : Lead → RecordOutcome) :
    ∀ (leads db : List Lead) (l : Lead),
      (leads.map Lead.id).Nodup → l ∈ leads →
      findLead db l.id = some l → (∀ u, op l ≠ .enrichedWith u) →
      findLead (applyOutcomes op leads db) l.id = some l := by
  intro leads
  induction leads with
  | nil => intro db l _ h; cases h
  | cons x t ih =>
    intro db l hnd hmem hfind hop
    have hnd2 : (x.id :: t.map Lead.id).Nodup := by
      simpa only [List.map_cons] using hnd
    have hhead : x.id ∉ t.map Lead.id := (List.nodup_cons.mp hnd2).1
    have htail : (t.map Lead.id).Nodup := (List.nodup_cons.mp hnd2).2
    rcases List.mem_cons.mp hmem with rfl | hmt
    · have hne : ∀ l2 ∈ t, l2.id ≠ l.id := by
        intro l2 hl2 he
        exact hhead (List.mem_map.mpr ⟨l2, hl2, he⟩)
      rw [applyOutcomes, findLead_applyOutcomes_ne op t _ _ hne]
      cases hox : op l with
      | raised m => exact hfind
      | noData => exact hfind
      | enrichedWith u2 => exact absurd hox (hop u2)
    · have hxne : x.id ≠ l.id := by
        intro he
        exact hhead (by rw [he]; exact List.mem_map.mpr ⟨l, hmt, rfl⟩)
      have hfind2 :
          findLead
            (match op x with
             | .enrichedWith u2 => applyUpdate db x.id u2
             | _ => db) l.id = some l := by
        cases hox : op x with
        | raised m => exact hfind
        | noData => exact hfind
        | enrichedWith u2 =>
          rw [findLead_applyUpdate_ne _ _ _ _ (Ne.symm hxne)]
          exact hfind
      rw [applyOutcomes]
      exact ih _ _ htail hmt hfind2 hop

/-- C4: in the bounded enrichment runner, a per-record failure is caught
at the record boundary: the run still counts processed for every input
record, records whose operation produced an update have it applied, and
failing records are left untouched — one record's failure aborts neither
its siblings nor the batch. -/
theorem runner_error_isolation (leads db : List Lead) (op : Lead → RecordOutcome)
    (hdb : (db.map Lead.id).Nodup) (hld : (leads.map Lead.id).Nodup)
    (hmem : ∀ l ∈ leads, l ∈ db) :
    (emailsEnrichLoop leads op db).processed = leads.length ∧
    (∀ l ∈ leads, ∀ u, op l = .enrichedWith u →
      findLead (emailsEnrichLoop leads op db).db l.id = some (update_lead l u)) ∧
    (∀ l ∈ leads, (∀ u, op l ≠ .enrichedWith u) →
      findLead (emailsEnrichLoop leads op db).db l.id = some l) := by
  have hdbeq : (emailsEnrichLoop leads op db).db = applyOutcomes op leads db := by
    simp only [emailsEnrichLoop]
    rw [emailsFold_db]
  have hfind : ∀ l ∈ leads, findLead db l.id = some l :=
    fun l hl => findLead_of_nodup db l hdb (hmem l hl)
  refine ⟨?_, ?_, ?_⟩
  · simp only [emailsEnrichLoop]
    rw [emailsFold_processed]
    simp
  · intro l hl u hop
    rw [hdbeq]
    exact findLead_applyOutcomes_enriched op leads db l u hld hl (hfind l hl) hop
  · intro l hl hop
    rw [hdbeq]
    exact findLead_applyOutcomes_unchanged op leads db l hld hl (hfind l hl) hop

/-- Sample partial update produced by a successful contact scrape. -/
def demoContactUpd : LeadUpdate :=
  { fields := [("email", "a@b.example")],
    enrichment_status := [("find_emails", .s "done")] }

/-- Sample eligible lead, id 1. -/
def demoLead1 : Lead :=
  { id := 1, campaign_id := 1, email := none,
    company_website := some "https://one.example", domain := none,
    decision_maker_name := none,
    enrichment_status := [("website_validated", .b true)], fields := [] }

/-- Sample eligible lead, id 2; its per-record operation fails. -/
def demoLead2 : Lead :=
  { id := 2, campaign_id := 1, email := none,
    company_website := some "https://two.example", domain := none,
    decision_maker_name := none,
    enrichment_status := [("website_validated", .b true)], fields := [] }

/-- Sample eligible lead, id 3. -/
def demoLead3 : Lead :=
  { id := 3, campaign_id := 1, email := none,
    company_website := some "https://three.example", domain := none,
    decision_maker_name := none,
    enrichment_status := [("website_validated", .b true)], fields := [] }

/-- Sample batch of three leads. -/
def demoBatch : List Lead := [demoLead1, demoLead2, demoLead3]

/-- Sample per-record operation that deterministically raises on the
lead with id 2 and enriches every other lead. -/
def demoOpFail2 : Lead → RecordOutcome :=
  fun l => if l.id = 2 then .raised "timeout" else .enrichedWith demoContactUpd

theorem runner_error_isolation_witness :
    (emailsEnrichLoop demoBatch demoOpFail2 demoBatch).processed = 3 ∧
    findLead (emailsEnrichLoop demoBatch demoOpFail2 demoBatch).db demoLead1.id
      = some (update_lead demoLead1 demoContactUpd) ∧
    findLead (emailsEnrichLoop demoBatch demoOpFail2 demoBatch).db demoLead2.id
      = some demoLead2 := by
  have h := runner_error_isolation demoBatch demoBatch demoOpFail2
    (by decide) (by decide) (fun l hl => hl)
  refine ⟨h.1, ?_, ?_⟩
  · exact h.2.1 demoLead1 (by decide) demoContactUpd (by decide)
  · exact h.2.2 demoLead2 (by decide)
      (by intro u hu; simp [demoOpFail2, demoLead2] at hu)

theorem emailsStep_trace (total : Nat) (st : RunState) (item : Lead × RecordOutcome) :
    (emailsStep total st item).trace
      = st.trace
          ++ (if (st.processed + 1) % 10 = 0
              then [(st.processed + 1, total)] else []) := by
  rcases item with ⟨l, o⟩
  cases o <;> (simp only [emailsStep]; split <;> simp [*])

theorem emailsFold_trace (op : Lead → RecordOutcome) (total : Nat) :
    ∀ (leads : List Lead) (st : RunState),
      (leads.foldl (fun st l => emailsStep total st (l, op l)) st).trace
        = st.trace
            ++ (cadencePoints 10 st.processed leads.length).map (fun x => (x, total)) := by
  intro leads
  induction leads with
  | nil => intro st; simp [cadencePoints]
  | cons x t ih =>
    intro st
    simp only [List.foldl_cons]
    rw [ih, emailsStep_trace, emailsStep_processed]
    simp only [List.length_cons, cadencePoints, List.map_append, List.append_assoc]
    congr 1
    split <;> simp [*]

theorem dmStep_processed (total : Nat) (st : RunState)
    (item : Lead × Option (List (String × String))) :
    (dmStep total st item).processed = st.processed + 1 := by
  rcases item with ⟨l, o⟩
  cases o <;> (simp only [dmStep]; split <;> rfl)

theorem dmStep_trace (total : Nat) (st : RunState)
    (item : Lead × Option (List (String × String))) :
    (dmStep total st item).trace
      = st.trace
          ++ (if (st.processed + 1) % 5 = 0
              then [(st.processed + 1, total)] else []) := by
  rcases item with ⟨l, o⟩
  cases o <;> (simp only [dmStep]; split <;> simp [*])

theorem dmFold_processed (op : Lead → Option (List (String × String))) (total : Nat) :
    ∀ (leads : List Lead) (st : RunState),
      (leads.foldl (fun st l => dmStep total st (l, op l)) st).processed
        = st.processed + leads.length := by
  intro leads
  induction leads with
  | nil => intro st; simp
  | cons x t ih =>
    intro st
    simp only [List.foldl_cons]
    rw [ih, dmStep_processed]
    simp only [List.length_cons]
    omega

theorem dmFold_trace (op : Lead → Option (List (String × String))) (total : Nat) :
    ∀ (leads : List Lead) (st : RunState),
      (leads.foldl (fun st l => dmStep total st (l, op l)) st).trace
        = st.trace
            ++ (cadencePoints 5 st.processed leads.length).map (fun x => (x, total)) := by
  intro leads
  induction leads with
  | nil => intro st; simp [cadencePoints]
  | cons x t ih =>
    intro st
    simp only [List.foldl_cons]
    rw [ih, dmStep_trace, dmStep_processed]
    simp only [List.length_cons, cadencePoints, List.map_append, List.append_assoc]
    congr 1
    split <;> simp [*]

theorem cadencePoints_mem (c : Nat) :
    ∀ (k p x : Nat), x ∈ cadencePoints c p k → p < x ∧ x ≤ p + k ∧ x % c = 0 := by
  intro k
  induction k with
  | zero => intro p x h; simp [cadencePoints] at h
  | succ k ih =>
    intro p x h
    simp only [cadencePoints] at h
    rcases List.mem_append.mp h with h1 | h2
    · by_cases hc : (p + 1) % c = 0
      · simp only [hc, if_pos, List.mem_singleton] at h1
        subst h1
        exact ⟨by omega, by omega, hc⟩
      · simp [hc] at h1
    · obtain ⟨ha, hb, hm⟩ := ih (p + 1) x h2
      exact ⟨by omega, by omega, hm⟩

theorem cadencePoints_pairwise (c : Nat) :
    ∀ (k p : Nat), (cadencePoints c p k).Pairwise (· < ·) := by
  intro k
  induction k with
  | zero => intro p; simp [cadencePoints]
  | succ k ih =>
    intro p
    simp only [cadencePoints]
    refine List.pairwise_append.mpr ⟨?_, ih (p + 1), ?_⟩
    · split <;> simp
    · intro x hx y hy
      have hxy : x = p + 1 := by
        by_cases hc : (p + 1) % c = 0
        · simpa [hc] using hx
        · simp [hc] at hx
      have hlt := (cadencePoints_mem c k (p + 1) y hy).1
      omega

theorem cadencePoints_complete (c : Nat) :
    ∀ (k p j : Nat), p < j → j ≤ p + k → j % c = 0 → j ∈ cadencePoints c p k := by
  intro k
  induction k with
  | zero => intro p j h1 h2 _; omega
  | succ k ih =>
    intro p j h1 h2 hm
    simp only [cadencePoints]
    by_cases hj : j = p + 1
    · subst hj
      simp [hm]
    · exact List.mem_append.mpr (Or.inr (ih (p + 1) j (by omega) (by omega) hm))

theorem getLast?_concat_eq {α : Type _} (l : List α) (a : α) : (l ++ [a]).getLast? = some a := by
  rw [List.getLast?_append_cons]
  rfl

theorem traceSpec_pairwise (c n : Nat) :
    (0 :: cadencePoints c 0 n ++ [n]).Pairwise (· ≤ ·) := by
  refine List.pairwise_cons.mpr ⟨fun x _ => Nat.zero_le x, ?_⟩
  refine List.pairwise_append.mpr ⟨?_, by simp, ?_⟩
  · exact (cadencePoints_pairwise c n 0).imp Nat.le_of_lt
  · intro x hx y hy
    have hb := (cadencePoints_mem c n 0 x hx).2.1
    simp only [List.mem_singleton] at hy
    omega

theorem traceSpec_last (c n : Nat) :
    (0 :: cadencePoints c 0 n ++ [n]).getLast? = some n :=
  getLast?_concat_eq _ n

theorem traceSpec_mem (c n : Nat) :
    ∀ x ∈ 0 :: cadencePoints c 0 n ++ [n], x = 0 ∨ x % c = 0 ∨ x = n := by
  intro x hx
  rcases List.mem_cons.mp hx with rfl | hx2
  · exact Or.inl rfl
  · rcases List.mem_append.mp hx2 with h1 | h2
    · exact Or.inr (Or.inl (cadencePoints_mem c n 0 x h1).2.2)
    · simp only [List.mem_singleton] at h2
      exact Or.inr (Or.inr h2)

theorem traceSpec_complete (c n j : Nat) (h1 : 0 < j) (hm : j % c = 0) (h2 : j ≤ n) :
    j ∈ 0 :: cadencePoints c 0 n ++ [n] := by
  by_cases hj : j = n
  · subst hj
    simp
  · have hin : j ∈ cadencePoints c 0 n :=
      cadencePoints_complete c n 0 j h1 (by omega) hm
    exact List.mem_cons_of_mem _ (List.mem_append.mpr (Or.inl hin))

theorem emailsLoop_trace_fst (leads : List Lead) (op : Lead → RecordOutcome)
    (db : List Lead) :
    (emailsEnrichLoop leads op db).trace.map Prod.fst
      = 0 :: cadencePoints 10 0 leads.length ++ [leads.length] := by
  simp only [emailsEnrichLoop]
  rw [emailsFold_trace, emailsFold_processed]
  simp only [List.map_append, List.map_map, List.map_cons, List.map_nil,
    Nat.zero_add, List.cons_append, List.nil_append]
  rw [show (Prod.fst ∘ fun x : Nat => (x, leads.length)) = id from rfl,
    List.map_id]

theorem dmLoop_trace_fst (leads : List Lead)
    (op : Lead → Option (List (String × String))) (db : List Lead) :
    (dmEnrichLoop leads op db).trace.map Prod.fst
      = 0 :: cadencePoints 5 0 leads.length ++ [leads.length] := by
  simp only [dmEnrichLoop]
  rw [dmFold_trace, dmFold_processed]
  simp only [List.map_append, List.map_map, List.map_cons, List.map_nil,
    Nat.zero_add, List.cons_append, List.nil_append]
  rw [show (Prod.fst ∘ fun x : Nat => (x, leads.length)) = id from rfl,
    List.map_id]

/-- C6: within one job execution the processed counter passed to
update_progress is non-decreasing, the flush points are exactly the
fixed cadence (every 10 completions in the email runner, every 5 in the
decision-maker runner) plus the initial snapshot and one final call, and
the final call's processed equals the number of input records. -/
theorem progress_monotone (leads : List Lead) (op1 : Lead → RecordOutcome)
    (op2 : Lead → Option (List (String × String))) (db1 db2 : List Lead) :
    (((emailsEnrichLoop leads op1 db1).trace.map Prod.fst).Pairwise (· ≤ ·) ∧
      ((emailsEnrichLoop leads op1 db1).trace.map Prod.fst).getLast?
        = some leads.length ∧
      (∀ x ∈ (emailsEnrichLoop leads op1 db1).trace.map Prod.fst,
        x = 0 ∨ x % 10 = 0 ∨ x = leads.length) ∧
      (∀ j, 0 < j → j % 10 = 0 → j ≤ leads.length →
        j ∈ (emailsEnrichLoop leads op1 db1).trace.map Prod.fst)) ∧
    (((dmEnrichLoop leads op2 db2).trace.map Prod.fst).Pairwise (· ≤ ·) ∧
      ((dmEnrichLoop leads op2 db2).trace.map Prod.fst).getLast?
        = some leads.length ∧
      (∀ x ∈ (dmEnrichLoop leads op2 db2).trace.map Prod.fst,
        x = 0 ∨ x % 5 = 0 ∨ x = leads.length) ∧
      (∀ j, 0 < j → j % 5 = 0 → j ≤ leads.length →
        j ∈ (dmEnrichLoop leads op2 db2).trace.map Prod.fst)) := by
  rw [emailsLoop_trace_fst, dmLoop_trace_fst]
  exact ⟨⟨traceSpec_pairwise 10 leads.length, traceSpec_last 10 leads.length,
      traceSpec_mem 10 leads.length,
      fun j h1 hm h2 => traceSpec_complete 10 leads.length j h1 hm h2⟩,
    ⟨traceSpec_pairwise 5 leads.length, traceSpec_last 5 leads.length,
      traceSpec_mem 5 leads.length,
      fun j h1 hm h2 => traceSpec_complete 5 leads.length j h1 hm h2⟩⟩

/-- Sample batch of twelve leads used to instantiate the progress
theorem on concrete input. -/
def demoLeads12 : List Lead :=
  (List.range 12).map (fun i =>
    { id := i, campaign_id := 0, email := none,
      company_website := some "https://w.example", domain := none,
      decision_maker_name := none, enrichment_status := [], fields := [] })

/-- Sample per-record operation that never enriches. -/
def demoOpNone : Lead → RecordOutcome := fun _ => .noData

/-- Sample decision-maker operation that never finds anyone. -/
def demoDmNone : Lead → Option (List (String × String)) := fun _ => none

theorem progress_monotone_witness :
    ((emailsEnrichLoop demoLeads12 demoOpNone []).trace.map Prod.fst).Pairwise (· ≤ ·) ∧
    ((dmEnrichLoop demoLeads12 demoDmNone []).trace.map Prod.fst).getLast?
      = some demoLeads12.length ∧
    (10 : Nat) ∈ (emailsEnrichLoop demoLeads12 demoOpNone []).trace.map Prod.fst :=
  ⟨(progress_monotone demoLeads12 demoOpNone demoDmNone [] []).1.1,
   (progress_monotone demoLeads12 demoOpNone demoDmNone [] []).2.2.1,
   (progress_monotone demoLeads12 demoOpNone demoDmNone [] []).1.2.2.2 10
      (by decide) (by decide) (by decide)⟩

theorem emailsLoop_trace_last (leads : List Lead) (op : Lead → RecordOutcome)
    (db : List Lead) :
    (emailsEnrichLoop leads op db).trace.getLast?
      = some (leads.length, leads.length) := by
  simp only [emailsEnrichLoop]
  rw [emailsFold_processed, getLast?_concat_eq]
  simp

theorem emailsRunner_counts (leads : List Lead) (op : Lead → RecordOutcome)
    (db : List Lead) (hne : leads ≠ []) :
    (emailsRunner leads op db).processed = leads.length ∧
    (emailsRunner leads op db).total = leads.length ∧
    (emailsRunner leads op db).trace.getLast?
      = some (leads.length, leads.length) := by
  have hni : leads.isEmpty = false := by
    cases leads with
    | nil => exact absurd rfl hne
    | cons a t => rfl
  refine ⟨?_, ?_, ?_⟩ <;>
    simp only [emailsRunner, hni, Bool.false_eq_true, if_false]
  · simp only [emailsEnrichLoop]
    rw [emailsFold_processed]
    simp
  · exact emailsLoop_trace_last leads op db

/-- C7: with config max_leads = 3 and exactly five store-eligible leads,
all of which carry websites, the email handler processes exactly three
records and reports total 3; the cap is applied by the store-level LIMIT
after all store-level filters, and max_leads defaults to 100 when the
config key is absent. -/
theorem max_leads_caps_batch (campaign : Nat) (db : List Lead)
    (op : Lead → RecordOutcome)
    (h5 : (db.filter (leadStoreFilter campaign false true
        (fun l => l.email.isNone))).length = 5)
    (hweb : ∀ l ∈ db.filter (leadStoreFilter campaign false true
        (fun l => l.email.isNone)), hasWebsite l = true) :
    (emailsRun [("max_leads", ConfigVal.num 3)] campaign true db op).processed = 3 ∧
    (emailsRun [("max_leads", ConfigVal.num 3)] campaign true db op).total = 3 ∧
    (emailsRun [("max_leads", ConfigVal.num 3)] campaign true db op).trace.getLast?
      = some (3, 3) ∧
    (∀ cfg : List (String × ConfigVal),
      cfg.find? (fun kv => kv.1 = "max_leads") = none →
      getNum cfg "max_leads" 100 = 100) := by
  have hlen : ((db.filter (leadStoreFilter campaign false true
      (fun l => l.email.isNone))).take 3).length = 3 := by
    rw [List.length_take, h5]
    decide
  have hfil : ((db.filter (leadStoreFilter campaign false true
        (fun l => l.email.isNone))).take 3).filter hasWebsite
      = (db.filter (leadStoreFilter campaign false true
          (fun l => l.email.isNone))).take 3 :=
    List.filter_eq_self.mpr (fun l hl => hweb l (List.take_subset _ _ hl))
  have hne : (db.filter (leadStoreFilter campaign false true
      (fun l => l.email.isNone))).take 3 ≠ [] := by
    intro h
    rw [h] at hlen
    exact absurd hlen (by decide)
  have hrun : emailsRun [("max_leads", ConfigVal.num 3)] campaign true db op
      = emailsRunner ((db.filter (leadStoreFilter campaign false true
          (fun l => l.email.isNone))).take 3) op db := by
    simp only [emailsRun, if_true]
    rw [show getNum [("max_leads", ConfigVal.num 3)] "max_leads" 100 = 3 from rfl,
      show getBool [("max_leads", ConfigVal.num 3)] "include_existing" false
        = false from rfl,
      show getBool [("max_leads", ConfigVal.num 3)] "validated_only" true
        = true from rfl,
      show fetchLeads db campaign 3 false true (fun l => l.email.isNone)
        = (db.filter (leadStoreFilter campaign false true
            (fun l => l.email.isNone))).take 3 from rfl,
      hfil]
  have hc := emailsRunner_counts
    ((db.filter (leadStoreFilter campaign false true
      (fun l => l.email.isNone))).take 3) op db hne
  rw [hrun]
  refine ⟨?_, ?_, ?_, ?_⟩
  · rw [hc.1, hlen]
  · rw [hc.2.1, hlen]
  · rw [hc.2.2, hlen]
  · intro cfg hcfg
    simp [getNum, hcfg]

/-- Sample store of five eligible leads used to instantiate the
max_leads theorem on concrete input. -/
def demoStore5 : List Lead :=
  (List.range 5).map (fun i =>
    { id := i, campaign_id := 9, email := none,
      company_website := some "https://w.example", domain := none,
      decision_maker_name := none,
      enrichment_status := [("website_validated", .b true)], fields := [] })

theorem max_leads_caps_batch_witness :
    (emailsRun [("max_leads", ConfigVal.num 3)] 9 true demoStore5 demoOpNone).processed
      = 3 ∧
    (emailsRun [("max_leads", ConfigVal.num 3)] 9 true demoStore5 demoOpNone).total
      = 3 :=
  ⟨(max_leads_caps_batch 9 demoStore5 demoOpNone (by decide) (by decide)).1,
   (max_leads_caps_batch 9 demoStore5 demoOpNone (by decide) (by decide)).2.1⟩

theorem pool_running_le :
    ∀ (c n : Nat) (s : PoolState), PoolReachable c n s → s.running ≤ c := by
  intro c n s h
  induction h with
  | refl => exact Nat.zero_le c
  | tail hab hbc ih =>
    cases hbc with
    | start r q hr => exact hr
    | finish r q => exact Nat.le_of_succ_le ih

/-- C9: in the bounded enrichment runner's fixed-size worker pool, at
most CONCURRENT_REQUESTS per-record operations are in flight in any
reachable pool state, and the email handler's pool size is five. -/
theorem pool_concurrency_bounded (n : Nat) (s : PoolState)
    (h : PoolReachable CONCURRENT_REQUESTS n s) :
    s.running ≤ CONCURRENT_REQUESTS ∧ CONCURRENT_REQUESTS = 5 :=
  ⟨pool_running_le CONCURRENT_REQUESTS n s h, rfl⟩

theorem pool_concurrency_bounded_witness :
    (PoolState.mk 0 3).running ≤ CONCURRENT_REQUESTS ∧ CONCURRENT_REQUESTS = 5 :=
  pool_concurrency_bounded 3 (PoolState.mk 0 3) Relation.ReflTransGen.refl
